import Mathlib

/-!
Shallow embedding of the file-storage reconciliation layer of `server.js`:
the path resolver (canonical and fallback paths), the flat metadata index
(a JS `Map` from composite keys to title/description entries), the structured
backup aggregate (subjects plus four per-category record lists), and the
startup reconciler (flat-index backfill, subject reconstruction, persistence).
Filesystem paths are modelled as their segment lists relative to the server
root, with `"storage"` as the first segment, mirroring Node `path.join`.
The filesystem itself is the list of paths of the files that exist.
-/

/-- A filesystem path as its list of segments; models the result of
`path.join(STORAGE_DIR, ...)` with `STORAGE_DIR` rendered as `"storage"`. -/
abbrev FsPath := List String

/-- A value of the flat metadata index: `{title, description, originalFileName}`. -/
structure Entry where
  title : String
  description : String
  originalFileName : String
deriving DecidableEq

/-- A record of the structured backup aggregate, shaped like the
`backupFileData` object built in the upload handler.  The `unit` field is
set only for notes records and is the empty string otherwise. -/
structure FileRec where
  id : String
  title : String
  description : String
  fileName : String
  storedFileName : String
  fileSize : String
  uploadDate : String
  subject : String
  type : String
  unit : String
  filePath : String
deriving DecidableEq

/-- A subject of the backup aggregate: `{id, name, units}`. -/
structure Subject where
  id : String
  name : String
  units : List String
deriving DecidableEq

/-- The in-memory server state: the set of existing files, the flat metadata
index `fileMetadata` (association list modelling a JS `Map`) and the
`fullBackupData` aggregate. -/
structure ServerState where
  fs : List FsPath
  fileMetadata : List (String × Entry)
  subjects : List Subject
  notes : List FileRec
  practiceTests : List FileRec
  practicals : List FileRec
  assignments : List FileRec
deriving DecidableEq

/-! ### JavaScript string helpers -/

/-- Replace every maximal run of whitespace by the single character `r`;
models the JS `str.replace(/\s+/g, c)` used for fallback paths.  The Boolean
argument records whether the previous character was whitespace. -/
def squashWsAux (r : Char) : Bool → List Char → List Char
  | _, [] => []
  | prevWs, c :: cs =>
    if c.isWhitespace then
      if prevWs then squashWsAux r true cs
      else r :: squashWsAux r true cs
    else c :: squashWsAux r false cs

/-- Models the JS `str.replace(/\s+/g, r)`. -/
def replaceWs (r : Char) (s : String) : String :=
  ⟨squashWsAux r false s.data⟩

/-- Models the JS `str.toLowerCase()` (ASCII behaviour). -/
def lowerStr (s : String) : String :=
  ⟨s.data.map Char.toLower⟩

/-- Models the JS `str.trim()`: strip leading and trailing whitespace. -/
def jsTrim (s : String) : String :=
  ⟨((s.data.dropWhile Char.isWhitespace).reverse.dropWhile Char.isWhitespace).reverse⟩

/-! ### Path resolution (GET and DELETE `/api/files/:subject/:type/:unit?/:filename`)

Both the lookup and the delete handler compute the primary file path with the
same `if`/`else if` chain, so a single definition embeds both.  The optional
`unit` route parameter is `none` when the three-segment form of the route
matched; the JS truthiness test `type === 'notes' && unit` is false for both
`none` and `some ""`. -/

/-- The primary (canonical) path computed by the lookup and delete handlers. -/
def resolveFilePath (subject ty : String) (unit : Option String) (filename : String) : FsPath :=
  if ty = "notes" ∧ unit.getD "" ≠ "" then
    ["storage", subject, "notes", unit.getD "", filename]
  else if ty = "practice-tests" then
    ["storage", subject, "practice-tests", filename]
  else if ty = "practicals" then
    ["storage", subject, "practicals", filename]
  else if ty = "assignments" then
    ["storage", subject, "assignments", filename]
  else
    ["storage", subject, ty, filename]

/-- The alternative paths pushed by the GET `/api/files` handler when the
canonical path does not exist, in push order. -/
def lookupAlternatives (subject ty : String) (unit : Option String) (filename : String) : List FsPath :=
  (if ty = "notes" ∧ unit.getD "" ≠ "" then
     [["storage", subject, "notes", replaceWs '_' (unit.getD ""), filename],
      ["storage", subject, "notes", replaceWs '-' (unit.getD ""), filename],
      ["storage", subject, "notes", lowerStr (unit.getD ""), filename]]
   else if ty = "practice-tests" then
     [["storage", replaceWs '_' subject, "practice-tests", filename],
      ["storage", replaceWs '-' subject, "practice-tests", filename],
      ["storage", lowerStr subject, "practice-tests", filename]]
   else if ty = "practicals" then
     [["storage", replaceWs '_' subject, "practicals", filename],
      ["storage", replaceWs '-' subject, "practicals", filename],
      ["storage", lowerStr subject, "practicals", filename]]
   else if ty = "assignments" then
     [["storage", replaceWs '_' subject, "assignments", filename],
      ["storage", replaceWs '-' subject, "assignments", filename],
      ["storage", lowerStr subject, "assignments", filename]]
   else []) ++
  (if ty ≠ "practice-tests" ∧ ty ≠ "practicals" ∧ ty ≠ "assignments" then
     [["storage", replaceWs '_' subject, ty, filename],
      ["storage", replaceWs '-' subject, ty, filename]]
   else [])

/-- The alternative paths pushed by the DELETE `/api/files` handler, in push
order.  Unlike the lookup handler, the two subject variants are pushed for
every category and the lower-cased subject is never tried. -/
def deleteAlternatives (subject ty : String) (unit : Option String) (filename : String) : List FsPath :=
  (if ty = "notes" ∧ unit.getD "" ≠ "" then
     [["storage", subject, "notes", replaceWs '_' (unit.getD ""), filename],
      ["storage", subject, "notes", replaceWs '-' (unit.getD ""), filename],
      ["storage", subject, "notes", lowerStr (unit.getD ""), filename]]
   else []) ++
  [["storage", replaceWs '_' subject, ty, filename],
   ["storage", replaceWs '-' subject, ty, filename]]

/-- The path actually served by the GET handler: the canonical path when it
exists, otherwise the first existing alternative; `none` yields the 404
`File not found` response. -/
def lookupFile (fs : List FsPath) (subject ty : String) (unit : Option String) (filename : String) :
    Option FsPath :=
  let canonical := resolveFilePath subject ty unit filename
  if canonical ∈ fs then some canonical
  else (lookupAlternatives subject ty unit filename).find? (fun p => decide (p ∈ fs))

/-! ### Upload destination (multer `destination` callback) -/

/-- The directory chosen by the multer `destination` callback, after the
header values have been trimmed.  An empty subject or type selects the
temporary directory; an unrecognised type (or notes without a unit) fails
with the `Invalid type` error message. -/
def uploadDestination (subjectRaw tyRaw unitRaw : String) : Except String FsPath :=
  let subject := jsTrim subjectRaw
  let ty := jsTrim tyRaw
  let unit := jsTrim unitRaw
  if subject = "" ∨ ty = "" then .ok ["storage", "temp"]
  else if ty = "notes" ∧ unit ≠ "" then .ok ["storage", subject, "notes", unit]
  else if ty = "practice-tests" then .ok ["storage", subject, "practice-tests"]
  else if ty = "practicals" then .ok ["storage", subject, "practicals"]
  else if ty = "assignments" then .ok ["storage", subject, "assignments"]
  else .error ("Invalid type: " ++ ty ++
    (if ty = "notes" ∧ unit = "" then " (unit required for notes)" else ""))

/-! ### Metadata index operations -/

/-- Lookup in the flat metadata index (JS `Map.get` / `Map.has`). -/
def lookupKey (m : List (String × Entry)) (k : String) : Option Entry :=
  match m with
  | [] => none
  | (k', v) :: rest => if k' = k then some v else lookupKey rest k

/-- Removal of a key from the flat metadata index (JS `Map.delete`; keys of a
`Map` are unique, so removal is modelled as dropping every pair at the key). -/
def eraseKey (m : List (String × Entry)) (k : String) : List (String × Entry) :=
  m.filter (fun p => decide (p.1 ≠ k))

/-- The composite metadata key `"{subject}-{type}-{unit || ''}-{filename}"`
built by the upload and delete handlers. -/
def metadataKey (subject ty : String) (unit : Option String) (filename : String) : String :=
  subject ++ "-" ++ ty ++ "-" ++ unit.getD "" ++ "-" ++ filename

/-! ### Structured backup store: upsert on upload -/

/-- Physical identity of two notes records: same stored file name, subject
and unit, as tested by the filter in the notes branch of the upload handler. -/
def sameNoteIdentity (a b : FileRec) : Prop :=
  a.storedFileName = b.storedFileName ∧ a.subject = b.subject ∧ a.unit = b.unit

/-- Physical identity of two non-notes records: same stored file name and
subject, as tested by the filters in the practice-tests, practicals and
assignments branches of the upload handler. -/
def sameFileIdentity (a b : FileRec) : Prop :=
  a.storedFileName = b.storedFileName ∧ a.subject = b.subject

instance : ∀ a b : FileRec, Decidable (sameNoteIdentity a b) := fun _ _ => by
  unfold sameNoteIdentity; infer_instance

instance : ∀ a b : FileRec, Decidable (sameFileIdentity a b) := fun _ _ => by
  unfold sameFileIdentity; infer_instance

/-- Upsert into the notes list: drop every record with the same physical
identity, then append the new record. -/
def upsertNote (l : List FileRec) (r : FileRec) : List FileRec :=
  l.filter (fun n => !(decide (sameNoteIdentity n r))) ++ [r]

/-- Upsert into a non-notes category list: drop every record with the same
physical identity, then append the new record. -/
def upsertByFile (l : List FileRec) (r : FileRec) : List FileRec :=
  l.filter (fun n => !(decide (sameFileIdentity n r))) ++ [r]

/-! ### Subject registration and unit accumulation -/

/-- Replace the first element satisfying `p` by its image under `f`
(the JS `findIndex` followed by an in-place update). -/
def updateFirst (p : Subject → Bool) (f : Subject → Subject) : List Subject → List Subject
  | [] => []
  | s :: rest => if p s then f s :: rest else s :: updateFirst p f rest

/-- Append the unit to a subject when it is not already present
(`if (!units.includes(u)) units.push(u)`). -/
def pushUnitIfNew (u : String) (sub : Subject) : Subject :=
  if u ∈ sub.units then sub else { sub with units := sub.units ++ [u] }

/-- The POST `/api/subjects` handler on the backup aggregate: build a fresh
subject from the request body and either replace the existing subject of the
same name wholesale or append it. -/
def postSubjects (s : ServerState) (name : String) (units : Option (List String))
    (newId : String) : ServerState :=
  let subjectData : Subject := ⟨newId, name, units.getD []⟩
  match s.subjects.findIdx? (fun sub => decide (sub.name = name)) with
  | some idx => { s with subjects := s.subjects.set idx subjectData }
  | none => { s with subjects := s.subjects ++ [subjectData] }

/-- The POST `/api/subjects/:subjectName/units` handler on the backup
aggregate: append the unit to the named subject when new. -/
def addUnit (s : ServerState) (subjectName unitName : String) : ServerState :=
  { s with subjects :=
      updateFirst (fun sub => decide (sub.name = subjectName)) (pushUnitIfNew unitName) s.subjects }

/-- Subject auto-registration performed by the upload handler (after the
category upsert): append a fresh subject when the name is unseen, otherwise
append the unit for notes uploads when it is new. -/
def uploadRegisterSubject (s : ServerState) (subject ty unit newId : String) : ServerState :=
  if ¬ s.subjects.any (fun sub => decide (sub.name = jsTrim subject)) then
    { s with subjects := s.subjects ++
        [⟨newId, jsTrim subject, if ty = "notes" ∧ unit ≠ "" then [jsTrim unit] else []⟩] }
  else if ty = "notes" ∧ unit ≠ "" then
    { s with subjects :=
        (updateFirst (fun sub => decide (sub.name = jsTrim subject)) (pushUnitIfNew (jsTrim unit))
          s.subjects) }
  else s

/-! ### DELETE `/api/files` -/

/-- Drop the record of the matching category list, exactly as the delete
handler filters it; other categories are untouched, an unrecognised category
touches nothing. -/
def removeBackupRecord (s : ServerState) (subject ty : String) (unit : Option String)
    (filename : String) : ServerState :=
  if ty = "notes" then
    { s with notes := s.notes.filter (fun n =>
        !(decide (n.storedFileName = filename ∧ n.subject = subject ∧ n.unit = unit.getD ""))) }
  else if ty = "practice-tests" then
    { s with practiceTests := s.practiceTests.filter (fun t =>
        !(decide (t.storedFileName = filename ∧ t.subject = subject))) }
  else if ty = "practicals" then
    { s with practicals := s.practicals.filter (fun p =>
        !(decide (p.storedFileName = filename ∧ p.subject = subject))) }
  else if ty = "assignments" then
    { s with assignments := s.assignments.filter (fun a =>
        !(decide (a.storedFileName = filename ∧ a.subject = subject))) }
  else s

/-- The category list the delete handler filters for a given type. -/
def categoryList (s : ServerState) (ty : String) : List FileRec :=
  if ty = "notes" then s.notes
  else if ty = "practice-tests" then s.practiceTests
  else if ty = "practicals" then s.practicals
  else if ty = "assignments" then s.assignments
  else []

/-- Remove a path from the set of existing files (`fs.removeSync`). -/
def removePath (fs : List FsPath) (p : FsPath) : List FsPath :=
  fs.filter (fun q => decide (q ≠ p))

/-- The DELETE `/api/files` handler: remove the file at the canonical path
when it exists, otherwise at the first existing alternative path, dropping the
metadata entry and the backup record alongside; the Boolean reports success
(`false` is the 404 `File not found` response). -/
def deleteFile (s : ServerState) (subject ty : String) (unit : Option String)
    (filename : String) : ServerState × Bool :=
  let canonical := resolveFilePath subject ty unit filename
  if canonical ∈ s.fs then
    (removeBackupRecord
      { s with fs := removePath s.fs canonical,
               fileMetadata := eraseKey s.fileMetadata (metadataKey subject ty unit filename) }
      subject ty unit filename, true)
  else
    match (deleteAlternatives subject ty unit filename).find? (fun p => decide (p ∈ s.fs)) with
    | some p =>
        (removeBackupRecord
          { s with fs := removePath s.fs p,
                   fileMetadata := eraseKey s.fileMetadata (metadataKey subject ty unit filename) }
          subject ty unit filename, true)
    | none => (s, false)

/-! ### Startup reconciliation: flat-index backfill -/

/-- The metadata entry synthesized from a backup record's own fields. -/
def entryOf (r : FileRec) : Entry :=
  ⟨r.title, r.description, r.fileName⟩

/-- Insert a key into the flat metadata index only when it is absent
(`if (!fileMetadata.has(key)) fileMetadata.set(key, ...)`). -/
def setIfAbsent (m : List (String × Entry)) (k : String) (e : Entry) : List (String × Entry) :=
  match lookupKey m k with
  | some _ => m
  | none => m ++ [(k, e)]

/-- The metadata key computed for a notes record during backfill:
`"{subject}-notes-{unit}-{storedFileName}"`. -/
def noteKey (r : FileRec) : String :=
  r.subject ++ "-notes-" ++ r.unit ++ "-" ++ r.storedFileName

/-- The metadata key computed for a non-notes record during backfill:
`"{subject}-{category}--{storedFileName}"` (empty unit segment). -/
def catKey (cat : String) (r : FileRec) : String :=
  r.subject ++ "-" ++ cat ++ "--" ++ r.storedFileName

/-- One backfill pass over a record list: synthesize the metadata entry for
every record whose key is absent from the flat index. -/
def backfillFrom (key : FileRec → String) (m : List (String × Entry)) (recs : List FileRec) :
    List (String × Entry) :=
  recs.foldl (fun acc r => setIfAbsent acc (key r) (entryOf r)) m

/-- The complete startup backfill: notes, then practice tests, then
practicals, then assignments, in source order. -/
def backfillAll (m : List (String × Entry)) (notes pts prs asgs : List FileRec) :
    List (String × Entry) :=
  backfillFrom (catKey "assignments")
    (backfillFrom (catKey "practicals")
      (backfillFrom (catKey "practice-tests")
        (backfillFrom noteKey m notes) pts) prs) asgs

/-! ### Startup reconciliation: subject reconstruction -/

/-- Insertion into a JS `Set` whose iteration order is insertion order:
append when absent. -/
def addDistinct (acc : List String) (x : String) : List String :=
  if x ∈ acc then acc else acc ++ [x]

/-- First-seen deduplication of a list, the contents of a JS `Set` populated
by iterating over the list. -/
def dedupFS (l : List String) : List String :=
  l.foldl addDistinct []

/-- One record list's contribution to `allSubjects`: each truthy subject name
is added to the set (`if (rec.subject) allSubjects.add(rec.subject)`). -/
def collectSubjectNames (acc : List String) (recs : List FileRec) : List String :=
  recs.foldl (fun a r => if r.subject ≠ "" then addDistinct a r.subject else a) acc

/-- The distinct units of a subject's notes records, in first-seen order
(`notes.filter(n => n.subject === s && n.unit).forEach(n => units.add(n.unit))`). -/
def collectUnits (notes : List FileRec) (subj : String) : List String :=
  (notes.filter (fun n => decide (n.subject = subj ∧ n.unit ≠ ""))).foldl
    (fun a n => addDistinct a n.unit) []

/-- Reconstruction of the subject list from the four record lists, run when
the loaded aggregate has no subjects.  `mkId` models the fresh
`Date.now().toString() + Math.random().toString(36).slice(2)` identifier
generated for the subject pushed at each position. -/
def reconstructSubjects (notes pts prs asgs : List FileRec) (mkId : Nat → String) :
    List Subject :=
  let allSubjects :=
    collectSubjectNames (collectSubjectNames (collectSubjectNames
      (collectSubjectNames [] notes) pts) prs) asgs
  allSubjects.enum.map (fun p => ⟨mkId p.1, p.2, collectUnits notes p.2⟩)

/-! ### Persistence and the full reconciler -/

/-- Rendering of a metadata entry inside the serialized flat-index document. -/
def renderEntry (e : Entry) : String :=
  "(title:" ++ e.title ++ ",description:" ++ e.description ++
    ",originalFileName:" ++ e.originalFileName ++ ")"

/-- The serialized `file-metadata.json` document; stands for the
`JSON.stringify` of the map with its fixed key order. -/
def renderMeta (m : List (String × Entry)) : String :=
  String.intercalate ";" (m.map (fun p => p.1 ++ "=" ++ renderEntry p.2))

/-- Rendering of one subject inside the serialized backup document. -/
def renderSubject (sub : Subject) : String :=
  "(id:" ++ sub.id ++ ",name:" ++ sub.name ++
    ",units:(" ++ String.intercalate "," sub.units ++ "))"

/-- Rendering of one backup record inside the serialized backup document. -/
def renderRec (r : FileRec) : String :=
  "(id:" ++ r.id ++ ",title:" ++ r.title ++ ",description:" ++ r.description ++
    ",fileName:" ++ r.fileName ++ ",storedFileName:" ++ r.storedFileName ++
    ",fileSize:" ++ r.fileSize ++ ",uploadDate:" ++ r.uploadDate ++
    ",subject:" ++ r.subject ++ ",type:" ++ r.type ++ ",unit:" ++ r.unit ++
    ",filePath:" ++ r.filePath ++ ")"

/-- The serialized `sncop-backup.json` document written by `saveMetadata`:
the aggregate spread with `lastBackup` set to the write's timestamp. -/
def renderBackup (s : ServerState) (now : String) : String :=
  "subjects:" ++ String.intercalate "," (s.subjects.map renderSubject) ++
  "|notes:" ++ String.intercalate "," (s.notes.map renderRec) ++
  "|practiceTests:" ++ String.intercalate "," (s.practiceTests.map renderRec) ++
  "|practicals:" ++ String.intercalate "," (s.practicals.map renderRec) ++
  "|assignments:" ++ String.intercalate "," (s.assignments.map renderRec) ++
  "|lastBackup:" ++ now

/-- The `saveMetadata` write pass: both serialized documents, with the backup
document stamped with the current time. -/
def saveMetadata (s : ServerState) (now : String) : String × String :=
  (renderMeta s.fileMetadata, renderBackup s now)

/-- The in-memory effect of the startup reconciliation block: backfill the
flat index from all four record lists, then reconstruct the subject list when
it is empty. -/
def reconcileState (s : ServerState) (mkId : Nat → String) : ServerState :=
  let m := backfillAll s.fileMetadata s.notes s.practiceTests s.practicals s.assignments
  let subs :=
    if s.subjects = [] then
      reconstructSubjects s.notes s.practiceTests s.practicals s.assignments mkId
    else s.subjects
  { s with fileMetadata := m, subjects := subs }

/-- The full startup reconciliation: update the in-memory state, then persist
both documents when the flat index grew or the subject list is non-empty
(`if (fileMetadata.size > initialSize || fullBackupData.subjects.length > 0)`).
`now` is the wall-clock time `saveMetadata` stamps into the backup document. -/
def reconcile (s : ServerState) (mkId : Nat → String) (now : String) :
    ServerState × Option (String × String) :=
  let s' := reconcileState s mkId
  if s'.fileMetadata.length > s.fileMetadata.length ∨ 0 < s'.subjects.length then
    (s', some (saveMetadata s' now))
  else (s', none)

deriving instance DecidableEq for Except

/-! ### Claim C9: canonical path derivation -/

/-- C9: for every valid input, path resolution with category `notes` and a
non-empty unit returns exactly `storage/{subject}/notes/{unit}/{filename}`,
and with one of the three non-notes categories returns exactly
`storage/{subject}/{category}/{filename}`, ignoring any supplied unit; the
upload destination directory follows the same scheme (without the trailing
filename, which multer appends separately). -/
theorem resolve_canonical_paths (subject u filename : String) (unit : Option String)
    (hu : u ≠ "") (hsub : jsTrim subject = subject) (hs : subject ≠ "")
    (hut : jsTrim u = u) :
    resolveFilePath subject "notes" (some u) filename
        = ["storage", subject, "notes", u, filename]
    ∧ resolveFilePath subject "practice-tests" unit filename
        = ["storage", subject, "practice-tests", filename]
    ∧ resolveFilePath subject "practicals" unit filename
        = ["storage", subject, "practicals", filename]
    ∧ resolveFilePath subject "assignments" unit filename
        = ["storage", subject, "assignments", filename]
    ∧ uploadDestination subject "notes" u = .ok ["storage", subject, "notes", u]
    ∧ ∀ anyUnit : String,
        uploadDestination subject "practice-tests" anyUnit
            = .ok ["storage", subject, "practice-tests"]
        ∧ uploadDestination subject "practicals" anyUnit
            = .ok ["storage", subject, "practicals"]
        ∧ uploadDestination subject "assignments" anyUnit
            = .ok ["storage", subject, "assignments"] := by
  refine ⟨?_, ?_, ?_, ?_, ?_, ?_⟩
  · simp [resolveFilePath, hu]
  · simp [resolveFilePath]
  · simp [resolveFilePath]
  · simp [resolveFilePath]
  · simp [uploadDestination, hsub, hs, hut, hu,
      show jsTrim "notes" = "notes" from by decide]
  · intro anyUnit
    refine ⟨?_, ?_, ?_⟩ <;>
      simp [uploadDestination, hsub, hs,
        show jsTrim "practice-tests" = "practice-tests" from by decide,
        show jsTrim "practicals" = "practicals" from by decide,
        show jsTrim "assignments" = "assignments" from by decide]

/-- Witness for C9 at a concrete input. -/
theorem resolve_canonical_paths_witness :
    ("Unit 1" ≠ "" ∧ jsTrim "Math" = "Math" ∧ ("Math" : String) ≠ "" ∧
      jsTrim "Unit 1" = "Unit 1")
    ∧ (resolveFilePath "Math" "notes" (some "Unit 1") "f.pdf"
        = ["storage", "Math", "notes", "Unit 1", "f.pdf"]
      ∧ resolveFilePath "Math" "practice-tests" (some "ignored") "f.pdf"
        = ["storage", "Math", "practice-tests", "f.pdf"]
      ∧ resolveFilePath "Math" "practicals" (some "ignored") "f.pdf"
        = ["storage", "Math", "practicals", "f.pdf"]
      ∧ resolveFilePath "Math" "assignments" (some "ignored") "f.pdf"
        = ["storage", "Math", "assignments", "f.pdf"]
      ∧ uploadDestination "Math" "notes" "Unit 1" = .ok ["storage", "Math", "notes", "Unit 1"]
      ∧ ∀ anyUnit : String,
          uploadDestination "Math" "practice-tests" anyUnit
              = .ok ["storage", "Math", "practice-tests"]
          ∧ uploadDestination "Math" "practicals" anyUnit
              = .ok ["storage", "Math", "practicals"]
          ∧ uploadDestination "Math" "assignments" anyUnit
              = .ok ["storage", "Math", "assignments"]) :=
  ⟨⟨by decide, by decide, by decide, by decide⟩,
    resolve_canonical_paths "Math" "Unit 1" "f.pdf" (some "ignored")
      (by decide) (by decide) (by decide) (by decide)⟩

/-! ### Claim C3: unrecognised categories -/

/-- C3 counterexample: with the unrecognised category `"weird"`, lookup (and
delete) path resolution with no unit supplied silently resolves to the generic
subpath `storage/S/weird/f.pdf` instead of failing with `InvalidCategory`,
while the upload destination fails with the `Invalid type` error even though a
unit is supplied — the opposite split of what the claim states. -/
theorem unknown_category_resolution_counterexample :
    resolveFilePath "S" "weird" none "f.pdf" = ["storage", "S", "weird", "f.pdf"]
    ∧ uploadDestination "S" "weird" "U1" = .error "Invalid type: weird" := by
  exact ⟨by decide, by decide⟩

/-- C3 amended: for a category outside the four recognised values, the upload
destination fails with the `Invalid type` error whether or not a unit is
supplied, while lookup and delete path resolution never fail: they resolve to
the generic subpath `storage/{subject}/{category}/{filename}`, ignoring any
supplied unit. -/
theorem unknown_category_behavior (subject cat filename unitRaw : String)
    (unit : Option String)
    (h1 : cat ≠ "notes") (h2 : cat ≠ "practice-tests") (h3 : cat ≠ "practicals")
    (h4 : cat ≠ "assignments") (hcne : cat ≠ "") (hc : jsTrim cat = cat)
    (hsub : jsTrim subject = subject) (hs : subject ≠ "") :
    resolveFilePath subject cat unit filename = ["storage", subject, cat, filename]
    ∧ uploadDestination subject cat unitRaw = .error ("Invalid type: " ++ cat) := by
  constructor
  · simp [resolveFilePath, h1, h2, h3, h4]
  · simp [uploadDestination, hsub, hs, hc, hcne, h1, h2, h3, h4]

/-- Witness for C3 amended at a concrete input. -/
theorem unknown_category_behavior_witness :
    (("weird" : String) ≠ "notes" ∧ ("weird" : String) ≠ "practice-tests" ∧
      ("weird" : String) ≠ "practicals" ∧ ("weird" : String) ≠ "assignments" ∧
      ("weird" : String) ≠ "" ∧ jsTrim "weird" = "weird" ∧
      jsTrim "S" = "S" ∧ ("S" : String) ≠ "")
    ∧ (resolveFilePath "S" "weird" (some "U1") "f.pdf"
        = ["storage", "S", "weird", "f.pdf"]
      ∧ uploadDestination "S" "weird" "U1" = .error ("Invalid type: " ++ "weird")) :=
  ⟨⟨by decide, by decide, by decide, by decide, by decide, by decide, by decide, by decide⟩,
    unknown_category_behavior "S" "weird" "f.pdf" "U1" (some "U1")
      (by decide) (by decide) (by decide) (by decide) (by decide) (by decide)
      (by decide) (by decide)⟩

/-! ### Claim C4: notes with an empty or absent unit -/

/-- C4 counterexample: lookup (and delete) path resolution with category
`notes` and an absent or empty unit does not fail with `MissingUnit`; it
silently resolves to `storage/S/notes/f.pdf` through the generic fallthrough
branch. -/
theorem notes_missing_unit_resolution_counterexample :
    resolveFilePath "S" "notes" none "f.pdf" = ["storage", "S", "notes", "f.pdf"]
    ∧ resolveFilePath "S" "notes" (some "") "f.pdf" = ["storage", "S", "notes", "f.pdf"] := by
  exact ⟨by decide, by decide⟩

/-- C4 amended: with category `notes` and an empty or absent unit, only the
upload destination fails (with the `Invalid type: notes (unit required for
notes)` message, the code's `MissingUnit` case); lookup and delete path
resolution silently resolve to `storage/{subject}/notes/{filename}` instead of
failing. -/
theorem notes_missing_unit_behavior (subject filename : String) (unit : Option String)
    (hu : unit.getD "" = "") (hsub : jsTrim subject = subject) (hs : subject ≠ "") :
    resolveFilePath subject "notes" unit filename = ["storage", subject, "notes", filename]
    ∧ uploadDestination subject "notes" ""
        = .error "Invalid type: notes (unit required for notes)" := by
  constructor
  · simp [resolveFilePath, hu]
  · simp [uploadDestination, hsub, hs,
      show jsTrim "notes" = "notes" from by decide,
      show jsTrim "" = "" from by decide]

/-- Witness for C4 amended at a concrete input. -/
theorem notes_missing_unit_behavior_witness :
    ((none : Option String).getD "" = "" ∧ jsTrim "S" = "S" ∧ ("S" : String) ≠ "")
    ∧ (resolveFilePath "S" "notes" none "f.pdf" = ["storage", "S", "notes", "f.pdf"]
      ∧ uploadDestination "S" "notes" ""
          = .error "Invalid type: notes (unit required for notes)") :=
  ⟨⟨by decide, by decide, by decide⟩,
    notes_missing_unit_behavior "S" "f.pdf" none (by decide) (by decide) (by decide)⟩

/-! ### Claim C6: upsert by physical identity -/

/-- Filtering an upsert-shaped list (`drop matches, append the new record`)
by the match predicate leaves exactly the new record. -/
theorem filter_dropMatches_append {α : Type} (p : α → Bool) (l : List α) (r : α)
    (hr : p r = true) :
    (l.filter (fun x => !(p x)) ++ [r]).filter p = [r] := by
  rw [List.filter_append, List.filter_filter]
  simp [hr]

/-- C6: inserting a record into the Structured Backup Store after an earlier
record with the same physical identity — `(storedFileName, subject, unit)` for
notes, `(storedFileName, subject)` for the other three categories — leaves
exactly one record with that identity in the category list, and that record
is the second insert (its field values win). -/
theorem upsert_unique_identity_second_wins (l : List FileRec) (r1 r2 : FileRec)
    (_hn : sameNoteIdentity r1 r2) (_hf : sameFileIdentity r1 r2) :
    (upsertNote (upsertNote l r1) r2).filter (fun x => decide (sameNoteIdentity x r2)) = [r2]
    ∧ (upsertNote (upsertNote l r1) r2).countP (fun x => decide (sameNoteIdentity x r2)) = 1
    ∧ (upsertByFile (upsertByFile l r1) r2).filter (fun x => decide (sameFileIdentity x r2)) = [r2]
    ∧ (upsertByFile (upsertByFile l r1) r2).countP (fun x => decide (sameFileIdentity x r2)) = 1 := by
  have hrn : (fun x => decide (sameNoteIdentity x r2)) r2 = true := by
    simp [sameNoteIdentity]
  have hrf : (fun x => decide (sameFileIdentity x r2)) r2 = true := by
    simp [sameFileIdentity]
  have e1 := filter_dropMatches_append (fun x => decide (sameNoteIdentity x r2))
    (upsertNote l r1) r2 hrn
  have e2 := filter_dropMatches_append (fun x => decide (sameFileIdentity x r2))
    (upsertByFile l r1) r2 hrf
  refine ⟨e1, ?_, e2, ?_⟩
  · rw [List.countP_eq_length_filter, upsertNote, e1]
    rfl
  · rw [List.countP_eq_length_filter, upsertByFile, e2]
    rfl

/-- A concrete first upload record used to witness C6. -/
def upsertRecFirst : FileRec :=
  ⟨"1", "Old Title", "old", "orig.pdf", "orig_1700000000123.pdf", "1 KB", "1/1/2024",
    "Math", "pdf", "Unit 1", "p1"⟩

/-- A concrete second upload record with the same physical identity and
different user-facing fields, used to witness C6. -/
def upsertRecSecond : FileRec :=
  ⟨"2", "New Title", "new", "orig.pdf", "orig_1700000000123.pdf", "2 KB", "2/1/2024",
    "Math", "pdf", "Unit 1", "p2"⟩

/-- Witness for C6 at a concrete input. -/
theorem upsert_unique_identity_second_wins_witness :
    (sameNoteIdentity upsertRecFirst upsertRecSecond
      ∧ sameFileIdentity upsertRecFirst upsertRecSecond)
    ∧ ((upsertNote (upsertNote [] upsertRecFirst) upsertRecSecond).filter
          (fun x => decide (sameNoteIdentity x upsertRecSecond)) = [upsertRecSecond]
      ∧ (upsertNote (upsertNote [] upsertRecFirst) upsertRecSecond).countP
          (fun x => decide (sameNoteIdentity x upsertRecSecond)) = 1
      ∧ (upsertByFile (upsertByFile [] upsertRecFirst) upsertRecSecond).filter
          (fun x => decide (sameFileIdentity x upsertRecSecond)) = [upsertRecSecond]
      ∧ (upsertByFile (upsertByFile [] upsertRecFirst) upsertRecSecond).countP
          (fun x => decide (sameFileIdentity x upsertRecSecond)) = 1) :=
  ⟨⟨by decide, by decide⟩,
    upsert_unique_identity_second_wins [] upsertRecFirst upsertRecSecond
      (by decide) (by decide)⟩

/-! ### Flat-index backfill lemmas (claims C10 and C1) -/

/-- A key found in the front part of an association list is found in the
concatenation. -/
theorem lookupKey_append_of_some {m1 m2 : List (String × Entry)} {k : String} {v : Entry}
    (h : lookupKey m1 k = some v) : lookupKey (m1 ++ m2) k = some v := by
  induction m1 with
  | nil => simp [lookupKey] at h
  | cons hd tl ih =>
      rcases hd with ⟨k', v'⟩
      by_cases hk : k' = k
      · simpa [lookupKey, hk] using h
      · rw [lookupKey] at h
        simp only [hk, if_false] at h
        simpa [lookupKey, hk] using ih h

/-- A key absent from the front part of an association list is looked up in
the back part. -/
theorem lookupKey_append_of_none {m1 m2 : List (String × Entry)} {k : String}
    (h : lookupKey m1 k = none) : lookupKey (m1 ++ m2) k = lookupKey m2 k := by
  induction m1 with
  | nil => simp
  | cons hd tl ih =>
      rcases hd with ⟨k', v'⟩
      by_cases hk : k' = k
      · simp [lookupKey, hk] at h
      · rw [lookupKey] at h
        simp only [hk, if_false] at h
        simpa [lookupKey, hk] using ih h

/-- `setIfAbsent` never changes the value stored at an existing key. -/
theorem lookupKey_setIfAbsent_of_some {m : List (String × Entry)} {k k' : String}
    {v : Entry} (e : Entry) (h : lookupKey m k = some v) :
    lookupKey (setIfAbsent m k' e) k = some v := by
  unfold setIfAbsent
  cases hl : lookupKey m k' with
  | some _ => exact h
  | none => exact lookupKey_append_of_some h

/-- After `setIfAbsent`, the key is present. -/
theorem lookupKey_setIfAbsent_isSome (m : List (String × Entry)) (k : String) (e : Entry) :
    (lookupKey (setIfAbsent m k e) k).isSome := by
  unfold setIfAbsent
  cases hl : lookupKey m k with
  | some _ => simp [hl]
  | none => rw [lookupKey_append_of_none hl]; simp [lookupKey]

/-- A backfill pass never changes the value stored at an existing key. -/
theorem lookupKey_backfillFrom_of_some (key : FileRec → String) (recs : List FileRec) :
    ∀ {m : List (String × Entry)} {k : String} {v : Entry},
      lookupKey m k = some v → lookupKey (backfillFrom key m recs) k = some v := by
  induction recs with
  | nil => intro m k v h; simpa [backfillFrom] using h
  | cons r rs ih =>
      intro m k v h
      have : backfillFrom key m (r :: rs)
          = backfillFrom key (setIfAbsent m (key r) (entryOf r)) rs := by
        simp [backfillFrom]
      rw [this]
      exact ih (lookupKey_setIfAbsent_of_some _ h)

/-- A backfill pass preserves presence of a key. -/
theorem lookupKey_backfillFrom_isSome (key : FileRec → String) (recs : List FileRec)
    {m : List (String × Entry)} {k : String}
    (h : (lookupKey m k).isSome) : (lookupKey (backfillFrom key m recs) k).isSome := by
  cases hl : lookupKey m k with
  | none => rw [hl] at h; simp at h
  | some v => rw [lookupKey_backfillFrom_of_some key recs hl]; rfl

/-- After a backfill pass, every processed record's key is present. -/
theorem backfillFrom_keys_present (key : FileRec → String) (recs : List FileRec) :
    ∀ (m : List (String × Entry)), ∀ r ∈ recs,
      (lookupKey (backfillFrom key m recs) (key r)).isSome := by
  induction recs with
  | nil => intro m r hr; simp at hr
  | cons hd tl ih =>
      intro m r hr
      have step : backfillFrom key m (hd :: tl)
          = backfillFrom key (setIfAbsent m (key hd) (entryOf hd)) tl := by
        simp [backfillFrom]
      rcases List.mem_cons.mp hr with h | h
      · subst h
        rw [step]
        exact lookupKey_backfillFrom_isSome key tl
          (lookupKey_setIfAbsent_isSome m (key r) (entryOf r))
      · rw [step]; exact ih _ r h

/-- A backfill pass over records whose keys are all present is the identity. -/
theorem backfillFrom_id_of_present (key : FileRec → String) (recs : List FileRec) :
    ∀ (m : List (String × Entry)),
      (∀ r ∈ recs, (lookupKey m (key r)).isSome) → backfillFrom key m recs = m := by
  induction recs with
  | nil => intro m _; simp [backfillFrom]
  | cons hd tl ih =>
      intro m h
      have hhd := h hd (List.mem_cons_self hd tl)
      have hset : setIfAbsent m (key hd) (entryOf hd) = m := by
        unfold setIfAbsent
        cases hl : lookupKey m (key hd) with
        | some _ => rfl
        | none => rw [hl] at hhd; simp at hhd
      have step : backfillFrom key m (hd :: tl)
          = backfillFrom key (setIfAbsent m (key hd) (entryOf hd)) tl := by
        simp [backfillFrom]
      rw [step, hset]
      exact ih m (fun r hr => h r (List.mem_cons_of_mem hd hr))

/-- The complete backfill never changes the value stored at an existing key. -/
theorem lookupKey_backfillAll_of_some {m : List (String × Entry)}
    (n p pr a : List FileRec) {k : String} {v : Entry}
    (h : lookupKey m k = some v) : lookupKey (backfillAll m n p pr a) k = some v := by
  unfold backfillAll
  exact lookupKey_backfillFrom_of_some _ a
    (lookupKey_backfillFrom_of_some _ pr
      (lookupKey_backfillFrom_of_some _ p
        (lookupKey_backfillFrom_of_some _ n h)))

/-- Running the complete backfill a second time on the same record lists
changes nothing. -/
theorem backfillAll_idem (m : List (String × Entry)) (n p pr a : List FileRec) :
    backfillAll (backfillAll m n p pr a) n p pr a = backfillAll m n p pr a := by
  set m1 := backfillFrom noteKey m n with hm1
  set m2 := backfillFrom (catKey "practice-tests") m1 p with hm2
  set m3 := backfillFrom (catKey "practicals") m2 pr with hm3
  set m4 := backfillFrom (catKey "assignments") m3 a with hm4
  have hM : backfillAll m n p pr a = m4 := by
    simp [backfillAll, hm1, hm2, hm3, hm4]
  have hnotes : ∀ r ∈ n, (lookupKey m4 (noteKey r)).isSome := by
    intro r hr
    exact lookupKey_backfillFrom_isSome _ a
      (lookupKey_backfillFrom_isSome _ pr
        (lookupKey_backfillFrom_isSome _ p (backfillFrom_keys_present _ n m r hr)))
  have hp : ∀ r ∈ p, (lookupKey m4 (catKey "practice-tests" r)).isSome := by
    intro r hr
    exact lookupKey_backfillFrom_isSome _ a
      (lookupKey_backfillFrom_isSome _ pr (backfillFrom_keys_present _ p m1 r hr))
  have hpr : ∀ r ∈ pr, (lookupKey m4 (catKey "practicals" r)).isSome := by
    intro r hr
    exact lookupKey_backfillFrom_isSome _ a (backfillFrom_keys_present _ pr m2 r hr)
  have ha : ∀ r ∈ a, (lookupKey m4 (catKey "assignments" r)).isSome :=
    fun r hr => backfillFrom_keys_present _ a m3 r hr
  rw [hM]
  unfold backfillAll
  rw [backfillFrom_id_of_present _ n m4 hnotes,
      backfillFrom_id_of_present _ p m4 hp,
      backfillFrom_id_of_present _ pr m4 hpr,
      backfillFrom_id_of_present _ a m4 ha]

/-! ### Claim C10: startup backfill is a frame for existing index entries -/

/-- C10: during startup reconciliation, every key already present in the flat
metadata index keeps its existing value — synthesis from the backup aggregate
never overwrites or deletes an entry, and a key absent after reconciliation
was already absent before. -/
theorem backfill_preserves_existing_entries (s : ServerState) (mkId : Nat → String)
    (k : String) (v : Entry) (h : lookupKey s.fileMetadata k = some v) :
    lookupKey (reconcileState s mkId).fileMetadata k = some v
    ∧ ∀ k' : String, lookupKey (reconcileState s mkId).fileMetadata k' = none →
        lookupKey s.fileMetadata k' = none := by
  constructor
  · show lookupKey (backfillAll s.fileMetadata s.notes s.practiceTests s.practicals
      s.assignments) k = some v
    exact lookupKey_backfillAll_of_some _ _ _ _ h
  · intro k' hnone
    cases hl : lookupKey s.fileMetadata k' with
    | none => rfl
    | some v' =>
        have : lookupKey (reconcileState s mkId).fileMetadata k' = some v' :=
          lookupKey_backfillAll_of_some _ _ _ _ hl
        rw [hnone] at this
        exact absurd this (by simp)

/-- A concrete pre-populated state used to witness C10: the flat index holds a
hand-written entry whose key collides with the one synthesized from the backup
note record, whose fields differ. -/
def backfillWitnessState : ServerState :=
  { fs := []
    fileMetadata := [("Math-notes-Unit 1-orig_1700000000123.pdf",
      ⟨"Hand Title", "hand", "orig.pdf"⟩)]
    subjects := [⟨"7", "Math", ["Unit 1"]⟩]
    notes := [upsertRecFirst]
    practiceTests := []
    practicals := []
    assignments := [] }

/-- Witness for C10 at a concrete input: the hand-written entry survives
reconciliation unchanged even though the backup note record would synthesize
different values at the same key. -/
theorem backfill_preserves_existing_entries_witness :
    lookupKey backfillWitnessState.fileMetadata "Math-notes-Unit 1-orig_1700000000123.pdf"
        = some ⟨"Hand Title", "hand", "orig.pdf"⟩
    ∧ (lookupKey (reconcileState backfillWitnessState (fun _ => "id")).fileMetadata
          "Math-notes-Unit 1-orig_1700000000123.pdf"
        = some ⟨"Hand Title", "hand", "orig.pdf"⟩
      ∧ ∀ k' : String,
          lookupKey (reconcileState backfillWitnessState (fun _ => "id")).fileMetadata k' = none →
          lookupKey backfillWitnessState.fileMetadata k' = none) :=
  ⟨by decide,
    backfill_preserves_existing_entries backfillWitnessState (fun _ => "id")
      "Math-notes-Unit 1-orig_1700000000123.pdf" ⟨"Hand Title", "hand", "orig.pdf"⟩
      (by decide)⟩

/-! ### Claim C1: the startup reconciler run twice -/

/-- The state component of `reconcile` is `reconcileState`, whichever branch
of the persistence test is taken. -/
theorem reconcile_fst (s : ServerState) (f : Nat → String) (t : String) :
    (reconcile s f t).1 = reconcileState s f := by
  unfold reconcile
  dsimp only
  split <;> rfl

/-- Whether reconstruction produces an empty subject list does not depend on
the generated identifiers. -/
theorem reconstructSubjects_nil_any (n p pr a : List FileRec) (f g : Nat → String)
    (h : reconstructSubjects n p pr a f = []) : reconstructSubjects n p pr a g = [] := by
  unfold reconstructSubjects at h ⊢
  simp only [List.map_eq_nil_iff] at h ⊢
  exact h

/-- The subject component of `reconcileState`, by unfolding. -/
theorem reconcileState_subjects (s : ServerState) (f : Nat → String) :
    (reconcileState s f).subjects =
      if s.subjects = [] then
        reconstructSubjects s.notes s.practiceTests s.practicals s.assignments f
      else s.subjects := rfl

/-- The in-memory effect of the reconciler is idempotent. -/
theorem reconcileState_idem (s : ServerState) (f g : Nat → String) :
    reconcileState (reconcileState s f) g = reconcileState s f := by
  have hsubs : (if (reconcileState s f).subjects = [] then
        reconstructSubjects s.notes s.practiceTests s.practicals s.assignments g
      else (reconcileState s f).subjects) = (reconcileState s f).subjects := by
    by_cases hs0 : s.subjects = []
    · rw [reconcileState_subjects, if_pos hs0]
      by_cases h2 : reconstructSubjects s.notes s.practiceTests s.practicals
          s.assignments f = []
      · rw [if_pos h2, reconstructSubjects_nil_any _ _ _ _ f g h2, h2]
      · rw [if_neg h2]
    · rw [reconcileState_subjects, if_neg hs0, if_neg hs0]
  cases s with
  | mk fs m subs n p pr a =>
      show ServerState.mk fs
          (backfillAll (backfillAll m n p pr a) n p pr a)
          (if (reconcileState (ServerState.mk fs m subs n p pr a) f).subjects = [] then
            reconstructSubjects n p pr a g
          else (reconcileState (ServerState.mk fs m subs n p pr a) f).subjects)
          n p pr a
        = reconcileState (ServerState.mk fs m subs n p pr a) f
      rw [backfillAll_idem m n p pr a, hsubs]
      rfl

/-- C1 amended: the startup reconciler run twice in sequence with no
intervening mutation produces the same in-memory end state as running it
once.  When the subject list is empty after the first run, the second run
persists nothing; otherwise both runs persist, the two flat-index documents
are byte-identical, and the two backup documents are renderings of the same
state differing exactly in the `lastBackup` timestamp stamped at write time
(byte-identical only when the two writes receive the same timestamp). -/
theorem reconcile_idempotent_upto_timestamp (s : ServerState) (f g : Nat → String)
    (t1 t2 : String) :
    (reconcile (reconcile s f t1).1 g t2).1 = (reconcile s f t1).1
    ∧ ((reconcile s f t1).1.subjects = [] →
        (reconcile (reconcile s f t1).1 g t2).2 = none)
    ∧ ((reconcile s f t1).1.subjects ≠ [] →
        (reconcile s f t1).2
            = some (renderMeta (reconcile s f t1).1.fileMetadata,
                    renderBackup (reconcile s f t1).1 t1)
        ∧ (reconcile (reconcile s f t1).1 g t2).2
            = some (renderMeta (reconcile s f t1).1.fileMetadata,
                    renderBackup (reconcile s f t1).1 t2)) := by
  have h1 : (reconcile s f t1).1 = reconcileState s f := reconcile_fst s f t1
  have hidem : reconcileState (reconcileState s f) g = reconcileState s f :=
    reconcileState_idem s f g
  have hfst2 : (reconcile (reconcileState s f) g t2).1 = reconcileState s f := by
    rw [reconcile_fst, hidem]
  refine ⟨by rw [h1, hfst2], ?_, ?_⟩
  · intro hempty
    rw [h1] at hempty ⊢
    unfold reconcile
    dsimp only
    rw [hidem, if_neg]
    rintro (hlt | hpos)
    · exact lt_irrefl _ hlt
    · rw [hempty] at hpos
      simp at hpos
  · intro hne
    rw [h1] at hne ⊢
    have hpos : 0 < (reconcileState s f).subjects.length := List.length_pos.mpr hne
    constructor
    · unfold reconcile
      dsimp only
      rw [if_pos (Or.inr hpos)]
      rfl
    · unfold reconcile
      dsimp only
      rw [hidem, if_pos (Or.inr hpos)]
      rfl

/-- A concrete state with a non-empty subject list, used for C1's
counterexample and witness. -/
def reconcileCexState : ServerState :=
  { fs := []
    fileMetadata := []
    subjects := [⟨"1", "Math", ["Unit 1"]⟩]
    notes := []
    practiceTests := []
    practicals := []
    assignments := [] }

/-- The identifier generator used in C1's concrete runs. -/
def constId : Nat → String := fun _ => "id"

/-- C1 counterexample: running the startup reconciler twice with no
intervening mutation does not produce byte-identical persisted documents —
the second run's backup document differs from the first run's (the
`lastBackup` field carries each write's own timestamp), even though the
flat-index documents agree. -/
theorem reconcile_twice_backup_doc_differs :
    ((reconcile (reconcile reconcileCexState constId "2024-01-01T00:00:00.000Z").1
          constId "2024-01-01T00:00:01.000Z").2.map Prod.snd
        ≠ (reconcile reconcileCexState constId "2024-01-01T00:00:00.000Z").2.map Prod.snd)
    ∧ ((reconcile (reconcile reconcileCexState constId "2024-01-01T00:00:00.000Z").1
          constId "2024-01-01T00:00:01.000Z").2.map Prod.fst
        = (reconcile reconcileCexState constId "2024-01-01T00:00:00.000Z").2.map Prod.fst) := by
  exact ⟨by decide, by decide⟩

/-- Witness for C1 amended at a concrete input. -/
theorem reconcile_idempotent_upto_timestamp_witness :
    (reconcile reconcileCexState constId "T1").1.subjects ≠ []
    ∧ (reconcile (reconcile reconcileCexState constId "T1").1 constId "T2").1
        = (reconcile reconcileCexState constId "T1").1
    ∧ (reconcile reconcileCexState constId "T1").2
        = some (renderMeta (reconcile reconcileCexState constId "T1").1.fileMetadata,
                renderBackup (reconcile reconcileCexState constId "T1").1 "T1")
    ∧ (reconcile (reconcile reconcileCexState constId "T1").1 constId "T2").2
        = some (renderMeta (reconcile reconcileCexState constId "T1").1.fileMetadata,
                renderBackup (reconcile reconcileCexState constId "T1").1 "T2") :=
  ⟨by decide,
    (reconcile_idempotent_upto_timestamp reconcileCexState constId constId "T1" "T2").1,
    ((reconcile_idempotent_upto_timestamp reconcileCexState constId constId "T1" "T2").2.2
      (by decide)).1,
    ((reconcile_idempotent_upto_timestamp reconcileCexState constId constId "T1" "T2").2.2
      (by decide)).2⟩

/-! ### Claim C2: unit accumulation -/

/-- Every element of a list survives `updateFirst`, either unchanged or with
`f` applied. -/
theorem mem_updateFirst (p : Subject → Bool) (f : Subject → Subject) :
    ∀ (l : List Subject), ∀ x ∈ l, ∃ y ∈ updateFirst p f l, y = x ∨ y = f x := by
  intro l
  induction l with
  | nil => simp
  | cons a l ih =>
      intro x hx
      by_cases hpa : p a = true
      · rw [updateFirst, if_pos hpa]
        rcases List.mem_cons.mp hx with rfl | hxl
        · exact ⟨f x, List.mem_cons_self _ _, Or.inr rfl⟩
        · exact ⟨x, List.mem_cons_of_mem _ hxl, Or.inl rfl⟩
      · rw [updateFirst, if_neg hpa]
        rcases List.mem_cons.mp hx with rfl | hxl
        · exact ⟨x, List.mem_cons_self _ _, Or.inl rfl⟩
        · obtain ⟨y, hy, hcase⟩ := ih x hxl
          exact ⟨y, List.mem_cons_of_mem _ hy, hcase⟩

/-- `updateFirst` is the identity when `f` fixes the first match. -/
theorem updateFirst_fix (p : Subject → Bool) (f : Subject → Subject) :
    ∀ (l : List Subject) (x : Subject), l.find? p = some x → f x = x →
      updateFirst p f l = l := by
  intro l
  induction l with
  | nil => intro x hx; simp at hx
  | cons a l ih =>
      intro x hx hfix
      by_cases hpa : p a = true
      · rw [List.find?_cons_of_pos _ hpa] at hx
        injection hx with hx
        subst hx
        rw [updateFirst, if_pos hpa, hfix]
      · rw [List.find?_cons_of_neg _ hpa] at hx
        rw [updateFirst, if_neg hpa, ih x hx hfix]

/-- The image of the first match belongs to the updated list. -/
theorem updateFirst_mem_image (p : Subject → Bool) (f : Subject → Subject) :
    ∀ (l : List Subject) (x : Subject), l.find? p = some x →
      f x ∈ updateFirst p f l := by
  intro l
  induction l with
  | nil => intro x hx; simp at hx
  | cons a l ih =>
      intro x hx
      by_cases hpa : p a = true
      · rw [List.find?_cons_of_pos _ hpa] at hx
        injection hx with hx
        subst hx
        rw [updateFirst, if_pos hpa]
        exact List.mem_cons_self _ _
      · rw [List.find?_cons_of_neg _ hpa] at hx
        rw [updateFirst, if_neg hpa]
        exact List.mem_cons_of_mem _ (ih x hx)

/-- `pushUnitIfNew` never changes the subject's name. -/
theorem pushUnitIfNew_name (u : String) (sub : Subject) :
    (pushUnitIfNew u sub).name = sub.name := by
  unfold pushUnitIfNew
  split <;> rfl

/-- `pushUnitIfNew` never removes a unit. -/
theorem pushUnitIfNew_mem (u : String) (sub : Subject) :
    ∀ x ∈ sub.units, x ∈ (pushUnitIfNew u sub).units := by
  intro x hx
  unfold pushUnitIfNew
  split
  · exact hx
  · exact List.mem_append_left _ hx

/-- A concrete state with subject `Math` holding unit `U1`, used for C2's
counterexample and witness. -/
def unitsCexState : ServerState :=
  { fs := []
    fileMetadata := []
    subjects := [⟨"1", "Math", ["U1"]⟩]
    notes := []
    practiceTests := []
    practicals := []
    assignments := [] }

/-- C2 counterexample: the explicit subject-creation request for an existing
subject name replaces the subject wholesale, removing a unit that was
previously present — units are not monotone across all non-deletion
operations. -/
theorem postSubjects_can_drop_units :
    (∃ sub ∈ unitsCexState.subjects, sub.name = "Math" ∧ "U1" ∈ sub.units)
    ∧ ∀ sub ∈ (postSubjects unitsCexState "Math" (some []) "2").subjects,
        "U1" ∉ sub.units := by
  exact ⟨by decide, by decide⟩

/-- C2 amended: units accumulate monotonically under note upload and
unit-creation — uploading with a new unit appends it, re-uploading with a
known unit leaves the subject list unchanged, and neither operation removes a
unit — but the explicit subject-creation request for an existing subject name
replaces that subject's unit list with the supplied one and can remove
units. -/
theorem units_monotone_under_upload_and_addUnit (s : ServerState)
    (subject ty unit newId subjectName unitName : String) :
    (∀ sub ∈ s.subjects, ∃ sub' ∈ (uploadRegisterSubject s subject ty unit newId).subjects,
        sub'.name = sub.name ∧ ∀ u ∈ sub.units, u ∈ sub'.units)
    ∧ (∀ sub ∈ s.subjects, ∃ sub' ∈ (addUnit s subjectName unitName).subjects,
        sub'.name = sub.name ∧ ∀ u ∈ sub.units, u ∈ sub'.units)
    ∧ (∀ sub, s.subjects.find? (fun x => decide (x.name = jsTrim subject)) = some sub →
        jsTrim unit ∈ sub.units → ty = "notes" → unit ≠ "" →
        uploadRegisterSubject s subject ty unit newId = s)
    ∧ (∀ sub, s.subjects.find? (fun x => decide (x.name = jsTrim subject)) = some sub →
        jsTrim unit ∉ sub.units → ty = "notes" → unit ≠ "" →
        ∃ sub' ∈ (uploadRegisterSubject s subject ty unit newId).subjects,
          sub'.name = sub.name ∧ sub'.units = sub.units ++ [jsTrim unit]) := by
  refine ⟨?_, ?_, ?_, ?_⟩
  · intro sub hsub
    unfold uploadRegisterSubject
    split
    · exact ⟨sub, List.mem_append_left _ hsub, rfl, fun u hu => hu⟩
    · split
      · obtain ⟨y, hy, hcase⟩ :=
          mem_updateFirst (fun x => decide (x.name = jsTrim subject))
            (pushUnitIfNew (jsTrim unit)) s.subjects sub hsub
        refine ⟨y, hy, ?_, ?_⟩
        · rcases hcase with rfl | rfl
          · rfl
          · exact pushUnitIfNew_name _ _
        · intro u hu
          rcases hcase with rfl | rfl
          · exact hu
          · exact pushUnitIfNew_mem _ _ u hu
      · exact ⟨sub, hsub, rfl, fun u hu => hu⟩
  · intro sub hsub
    obtain ⟨y, hy, hcase⟩ :=
      mem_updateFirst (fun x => decide (x.name = subjectName))
        (pushUnitIfNew unitName) s.subjects sub hsub
    refine ⟨y, hy, ?_, ?_⟩
    · rcases hcase with rfl | rfl
      · rfl
      · exact pushUnitIfNew_name _ _
    · intro u hu
      rcases hcase with rfl | rfl
      · exact hu
      · exact pushUnitIfNew_mem _ _ u hu
  · intro sub hfind hmem hty hunit
    have hpsub := List.find?_some hfind
    have hany : s.subjects.any (fun x => decide (x.name = jsTrim subject)) = true :=
      List.any_eq_true.mpr ⟨sub, List.mem_of_find?_eq_some hfind, hpsub⟩
    have hfix : pushUnitIfNew (jsTrim unit) sub = sub := by
      unfold pushUnitIfNew
      rw [if_pos hmem]
    unfold uploadRegisterSubject
    rw [if_neg (by simpa using hany), if_pos ⟨hty, hunit⟩,
        updateFirst_fix _ _ s.subjects sub hfind hfix]
  · intro sub hfind hmem hty hunit
    have hpsub := List.find?_some hfind
    have hany : s.subjects.any (fun x => decide (x.name = jsTrim subject)) = true :=
      List.any_eq_true.mpr ⟨sub, List.mem_of_find?_eq_some hfind, hpsub⟩
    have himg := updateFirst_mem_image (fun x => decide (x.name = jsTrim subject))
      (pushUnitIfNew (jsTrim unit)) s.subjects sub hfind
    have hpush : pushUnitIfNew (jsTrim unit) sub
        = { sub with units := sub.units ++ [jsTrim unit] } := by
      unfold pushUnitIfNew
      rw [if_neg hmem]
    refine ⟨pushUnitIfNew (jsTrim unit) sub, ?_, pushUnitIfNew_name _ _, ?_⟩
    · unfold uploadRegisterSubject
      rw [if_neg (by simpa using hany), if_pos ⟨hty, hunit⟩]
      exact himg
    · rw [hpush]

/-- Witness for C2 amended at concrete inputs: uploading a new unit `U2`
appends it to `Math`'s unit list, and re-uploading the known unit `U1`
changes nothing. -/
theorem units_monotone_under_upload_and_addUnit_witness :
    (∀ sub ∈ unitsCexState.subjects,
        ∃ sub' ∈ (uploadRegisterSubject unitsCexState "Math" "notes" "U2" "9").subjects,
          sub'.name = sub.name ∧ ∀ u ∈ sub.units, u ∈ sub'.units)
    ∧ uploadRegisterSubject unitsCexState "Math" "notes" "U1" "9" = unitsCexState
    ∧ ∃ sub' ∈ (uploadRegisterSubject unitsCexState "Math" "notes" "U2" "9").subjects,
        sub'.name = (⟨"1", "Math", ["U1"]⟩ : Subject).name
        ∧ sub'.units = (⟨"1", "Math", ["U1"]⟩ : Subject).units ++ [jsTrim "U2"] :=
  ⟨(units_monotone_under_upload_and_addUnit unitsCexState "Math" "notes" "U2" "9"
      "Math" "U3").1,
   (units_monotone_under_upload_and_addUnit unitsCexState "Math" "notes" "U1" "9"
      "Math" "U3").2.2.1 ⟨"1", "Math", ["U1"]⟩ (by decide) (by decide) rfl (by decide),
   (units_monotone_under_upload_and_addUnit unitsCexState "Math" "notes" "U2" "9"
      "Math" "U3").2.2.2 ⟨"1", "Math", ["U1"]⟩ (by decide) (by decide) rfl (by decide)⟩

/-! ### Claim C5: fallback search order -/

/-- A concrete state whose only file sits at the lower-cased subject path,
used for C5's counterexample. -/
def fallbackCexState : ServerState :=
  { fs := [["storage", "math", "practice-tests", "f.pdf"]]
    fileMetadata := []
    subjects := []
    notes := []
    practiceTests := []
    practicals := []
    assignments := [] }

/-- C5 counterexample: the claim's fallback order (which includes the
lower-cased subject for non-notes categories, for delete as well as lookup)
would find the file, and the lookup handler does find it, but the delete
handler never tries the lower-cased subject and fails with `NotFound`,
leaving the state untouched. -/
theorem delete_fallback_misses_lowercase_subject :
    ["storage", "math", "practice-tests", "f.pdf"] ∈ fallbackCexState.fs
    ∧ lookupFile fallbackCexState.fs "Math" "practice-tests" none "f.pdf"
        = some ["storage", "math", "practice-tests", "f.pdf"]
    ∧ (deleteFile fallbackCexState "Math" "practice-tests" none "f.pdf").2 = false
    ∧ (deleteFile fallbackCexState "Math" "practice-tests" none "f.pdf").1
        = fallbackCexState := by
  exact ⟨by decide, by decide, by decide, by decide⟩

/-- C5 amended: lookup and delete each try the canonical path first and then
their own alternative lists in order, the first existing path winning and
`NotFound` resulting when none exists; but the two lists differ from the
claimed order.  For non-notes categories, lookup tries subject-with-underscore,
subject-with-hyphen, subject lower-cased, while delete tries only the first
two (never the lower-cased subject).  For notes, after the three unit
variants both handlers additionally try the two subject variants with the
unit segment dropped entirely. -/
theorem fallback_search_characterization (fs : List FsPath) (s : ServerState)
    (subject ty filename : String) (unit : Option String) :
    lookupFile fs subject ty unit filename
        = (resolveFilePath subject ty unit filename
            :: lookupAlternatives subject ty unit filename).find? (fun p => decide (p ∈ fs))
    ∧ (deleteFile s subject ty unit filename).2
        = ((resolveFilePath subject ty unit filename
            :: deleteAlternatives subject ty unit filename).find?
              (fun p => decide (p ∈ s.fs))).isSome
    ∧ (lookupFile fs subject ty unit filename = none ↔
        ∀ p ∈ resolveFilePath subject ty unit filename
            :: lookupAlternatives subject ty unit filename, p ∉ fs)
    ∧ lookupAlternatives subject "practice-tests" unit filename
        = [["storage", replaceWs '_' subject, "practice-tests", filename],
           ["storage", replaceWs '-' subject, "practice-tests", filename],
           ["storage", lowerStr subject, "practice-tests", filename]]
    ∧ deleteAlternatives subject "practice-tests" unit filename
        = [["storage", replaceWs '_' subject, "practice-tests", filename],
           ["storage", replaceWs '-' subject, "practice-tests", filename]]
    ∧ (∀ u : String, u ≠ "" →
        lookupAlternatives subject "notes" (some u) filename
          = [["storage", subject, "notes", replaceWs '_' u, filename],
             ["storage", subject, "notes", replaceWs '-' u, filename],
             ["storage", subject, "notes", lowerStr u, filename],
             ["storage", replaceWs '_' subject, "notes", filename],
             ["storage", replaceWs '-' subject, "notes", filename]]
        ∧ deleteAlternatives subject "notes" (some u) filename
          = [["storage", subject, "notes", replaceWs '_' u, filename],
             ["storage", subject, "notes", replaceWs '-' u, filename],
             ["storage", subject, "notes", lowerStr u, filename],
             ["storage", replaceWs '_' subject, "notes", filename],
             ["storage", replaceWs '-' subject, "notes", filename]]) := by
  refine ⟨?_, ?_, ?_, ?_, ?_, ?_⟩
  · unfold lookupFile
    dsimp only
    by_cases h : resolveFilePath subject ty unit filename ∈ fs
    · rw [if_pos h, List.find?_cons_of_pos _ (by simpa using h)]
    · rw [if_neg h, List.find?_cons_of_neg _ (by simpa using h)]
  · unfold deleteFile
    dsimp only
    by_cases h : resolveFilePath subject ty unit filename ∈ s.fs
    · rw [if_pos h, List.find?_cons_of_pos _ (by simpa using h)]
      rfl
    · rw [if_neg h, List.find?_cons_of_neg _ (by simpa using h)]
      cases hf : (deleteAlternatives subject ty unit filename).find?
          (fun p => decide (p ∈ s.fs)) with
      | none => rfl
      | some p => rfl
  · unfold lookupFile
    dsimp only
    by_cases h : resolveFilePath subject ty unit filename ∈ fs
    · simp [h]
    · rw [if_neg h]
      rw [List.find?_eq_none]
      constructor
      · intro hall
        intro p hp
        rcases List.mem_cons.mp hp with rfl | hmem
        · exact h
        · simpa using hall p hmem
      · intro hall p hp
        simpa using hall p (List.mem_cons_of_mem _ hp)
  · simp [lookupAlternatives]
  · simp [deleteAlternatives]
  · intro u hu
    constructor
    · simp [lookupAlternatives, hu]
    · simp [deleteAlternatives, hu]

/-- Witness for C5 amended at concrete inputs. -/
theorem fallback_search_characterization_witness :
    (lookupFile fallbackCexState.fs "My Subject" "practice-tests" none "f.pdf"
        = (resolveFilePath "My Subject" "practice-tests" none "f.pdf"
            :: lookupAlternatives "My Subject" "practice-tests" none "f.pdf").find?
              (fun p => decide (p ∈ fallbackCexState.fs)))
    ∧ ("Unit 1" ≠ "" ∧
        lookupAlternatives "My Subject" "notes" (some "Unit 1") "f.pdf"
          = [["storage", "My Subject", "notes", replaceWs '_' "Unit 1", "f.pdf"],
             ["storage", "My Subject", "notes", replaceWs '-' "Unit 1", "f.pdf"],
             ["storage", "My Subject", "notes", lowerStr "Unit 1", "f.pdf"],
             ["storage", replaceWs '_' "My Subject", "notes", "f.pdf"],
             ["storage", replaceWs '-' "My Subject", "notes", "f.pdf"]]) :=
  ⟨(fallback_search_characterization fallbackCexState.fs fallbackCexState
      "My Subject" "practice-tests" "f.pdf" none).1,
   by decide,
   ((fallback_search_characterization fallbackCexState.fs fallbackCexState
      "My Subject" "notes" "f.pdf" none).2.2.2.2.2 "Unit 1" (by decide)).1⟩

/-! ### Claim C8: delete removes the index entry and the backup record -/

/-- Deleting a key from the flat metadata index makes it absent. -/
theorem lookupKey_eraseKey (m : List (String × Entry)) (k : String) :
    lookupKey (eraseKey m k) k = none := by
  induction m with
  | nil => rfl
  | cons hd tl ih =>
      rcases hd with ⟨k', v⟩
      by_cases h : k' = k
      · simpa [eraseKey, List.filter_cons, h] using ih
      · rw [show eraseKey ((k', v) :: tl) k = (k', v) :: eraseKey tl k from by
            simp [eraseKey, List.filter_cons, h]]
        simp only [lookupKey, h, if_false]
        exact ih

/-- `removeBackupRecord` only touches the category lists. -/
theorem removeBackupRecord_fs (s : ServerState) (subject ty : String)
    (unit : Option String) (filename : String) :
    (removeBackupRecord s subject ty unit filename).fs = s.fs := by
  unfold removeBackupRecord
  repeat' split
  all_goals rfl

/-- `removeBackupRecord` leaves the flat metadata index unchanged. -/
theorem removeBackupRecord_fileMetadata (s : ServerState) (subject ty : String)
    (unit : Option String) (filename : String) :
    (removeBackupRecord s subject ty unit filename).fileMetadata = s.fileMetadata := by
  unfold removeBackupRecord
  repeat' split
  all_goals rfl

/-- After `removeBackupRecord`, no record with the deleted identity remains in
the matching category list. -/
theorem removeBackupRecord_no_match (s : ServerState) (subject ty : String)
    (unit : Option String) (filename : String) :
    ∀ r ∈ categoryList (removeBackupRecord s subject ty unit filename) ty,
      ¬(r.storedFileName = filename ∧ r.subject = subject ∧
        (ty = "notes" → r.unit = unit.getD "")) := by
  intro r hr
  by_cases h1 : ty = "notes"
  · subst h1
    simp only [categoryList, removeBackupRecord, if_pos rfl] at hr
    have hmem := (List.mem_filter.mp hr).2
    simp only [Bool.not_eq_true', decide_eq_false_iff_not] at hmem
    rintro ⟨ha, hb, hc⟩
    exact hmem ⟨ha, hb, hc rfl⟩
  · by_cases h2 : ty = "practice-tests"
    · subst h2
      simp [categoryList, removeBackupRecord] at hr
      rintro ⟨ha, hb, _⟩
      rcases hr.2 with hA | hB
      · exact hA ha
      · exact hB hb
    · by_cases h3 : ty = "practicals"
      · subst h3
        simp [categoryList, removeBackupRecord] at hr
        rintro ⟨ha, hb, _⟩
        rcases hr.2 with hA | hB
        · exact hA ha
        · exact hB hb
      · by_cases h4 : ty = "assignments"
        · subst h4
          simp [categoryList, removeBackupRecord] at hr
          rintro ⟨ha, hb, _⟩
          rcases hr.2 with hA | hB
          · exact hA ha
          · exact hB hb
        · simp only [categoryList] at hr
          rw [if_neg h1, if_neg h2, if_neg h3, if_neg h4] at hr
          simp at hr

/-- C8: when the stored file occupies its canonical path (and none of the
lookup fallback paths holds a stray copy), deleting it succeeds, removes its
flat metadata entry and its record from the matching category list, and a
subsequent lookup for the same (subject, category, unit, filename) fails with
`NotFound` after exhausting all fallback paths. -/
theorem delete_removes_metadata_and_record (s : ServerState) (subject ty : String)
    (unit : Option String) (filename : String)
    (hcanon : resolveFilePath subject ty unit filename ∈ s.fs)
    (halts : ∀ p ∈ lookupAlternatives subject ty unit filename,
        p ∈ s.fs → p = resolveFilePath subject ty unit filename) :
    (deleteFile s subject ty unit filename).2 = true
    ∧ lookupKey (deleteFile s subject ty unit filename).1.fileMetadata
        (metadataKey subject ty unit filename) = none
    ∧ (∀ r ∈ categoryList (deleteFile s subject ty unit filename).1 ty,
        ¬(r.storedFileName = filename ∧ r.subject = subject ∧
          (ty = "notes" → r.unit = unit.getD "")))
    ∧ lookupFile (deleteFile s subject ty unit filename).1.fs subject ty unit filename
        = none := by
  have hdf : deleteFile s subject ty unit filename
      = (removeBackupRecord
          { s with fs := removePath s.fs (resolveFilePath subject ty unit filename),
                   fileMetadata :=
                     eraseKey s.fileMetadata (metadataKey subject ty unit filename) }
          subject ty unit filename, true) := by
    unfold deleteFile
    dsimp only
    rw [if_pos hcanon]
  refine ⟨by rw [hdf], ?_, ?_, ?_⟩
  · rw [hdf]
    dsimp only
    rw [removeBackupRecord_fileMetadata]
    exact lookupKey_eraseKey _ _
  · rw [hdf]
    dsimp only
    exact removeBackupRecord_no_match _ _ _ _ _
  · rw [hdf]
    dsimp only
    rw [removeBackupRecord_fs]
    have hcnot : resolveFilePath subject ty unit filename
        ∉ removePath s.fs (resolveFilePath subject ty unit filename) := by
      intro hmem
      have := (List.mem_filter.mp hmem).2
      simp at this
    unfold lookupFile
    dsimp only
    rw [if_neg hcnot, List.find?_eq_none]
    intro p hp
    simp only [decide_eq_true_eq]
    intro hmem
    have hpfs : p ∈ s.fs := (List.mem_filter.mp hmem).1
    have hpneq : p ≠ resolveFilePath subject ty unit filename := by
      have := (List.mem_filter.mp hmem).2
      simpa using this
    exact hpneq (halts p hp hpfs)

/-- A concrete state holding one practicals file at its canonical path, with
its metadata entry and backup record, used to witness C8. -/
def deleteWitnessState : ServerState :=
  { fs := [["storage", "math", "practicals", "f.pdf"]]
    fileMetadata := [("math-practicals--f.pdf", ⟨"T", "", "f.pdf"⟩)]
    subjects := [⟨"1", "math", []⟩]
    notes := []
    practiceTests := []
    practicals := [⟨"5", "T", "", "f.pdf", "f.pdf", "1 KB", "1/1/2024", "math", "pdf", "", "p"⟩]
    assignments := [] }

/-- Witness for C8 at a concrete input. -/
theorem delete_removes_metadata_and_record_witness :
    (resolveFilePath "math" "practicals" none "f.pdf" ∈ deleteWitnessState.fs
      ∧ ∀ p ∈ lookupAlternatives "math" "practicals" none "f.pdf",
          p ∈ deleteWitnessState.fs → p = resolveFilePath "math" "practicals" none "f.pdf")
    ∧ ((deleteFile deleteWitnessState "math" "practicals" none "f.pdf").2 = true
      ∧ lookupKey (deleteFile deleteWitnessState "math" "practicals" none "f.pdf").1.fileMetadata
          (metadataKey "math" "practicals" none "f.pdf") = none
      ∧ (∀ r ∈ categoryList
            (deleteFile deleteWitnessState "math" "practicals" none "f.pdf").1 "practicals",
          ¬(r.storedFileName = "f.pdf" ∧ r.subject = "math" ∧
            ("practicals" = "notes" → r.unit = (none : Option String).getD "")))
      ∧ lookupFile (deleteFile deleteWitnessState "math" "practicals" none "f.pdf").1.fs
          "math" "practicals" none "f.pdf" = none) :=
  ⟨⟨by decide, by decide⟩,
    delete_removes_metadata_and_record deleteWitnessState "math" "practicals" none "f.pdf"
      (by decide) (by decide)⟩

/-! ### Claim C7: subject reconstruction -/

/-- Membership in a JS-`Set`-style insertion. -/
theorem mem_addDistinct (acc : List String) (a x : String) :
    x ∈ addDistinct acc a ↔ x ∈ acc ∨ x = a := by
  unfold addDistinct
  split
  · rename_i h
    constructor
    · exact Or.inl
    · rintro (hx | rfl)
      · exact hx
      · exact h
  · simp

/-- JS-`Set`-style insertion preserves distinctness. -/
theorem nodup_addDistinct (acc : List String) (a : String) (h : acc.Nodup) :
    (addDistinct acc a).Nodup := by
  unfold addDistinct
  split
  · exact h
  · rename_i hna
    simpa [List.nodup_append, h] using hna

/-- Membership after folding JS-`Set`-style insertions. -/
theorem mem_foldl_addDistinct (l : List String) :
    ∀ (acc : List String) (x : String),
      x ∈ l.foldl addDistinct acc ↔ x ∈ acc ∨ x ∈ l := by
  induction l with
  | nil => intro acc x; simp
  | cons a l ih =>
      intro acc x
      rw [List.foldl_cons, ih, mem_addDistinct]
      constructor
      · rintro ((hx | rfl) | hx)
        · exact Or.inl hx
        · exact Or.inr (List.mem_cons_self _ _)
        · exact Or.inr (List.mem_cons_of_mem _ hx)
      · rintro (hx | hx)
        · exact Or.inl (Or.inl hx)
        · rcases List.mem_cons.mp hx with rfl | hx
          · exact Or.inl (Or.inr rfl)
          · exact Or.inr hx

/-- Folding JS-`Set`-style insertions preserves distinctness. -/
theorem nodup_foldl_addDistinct (l : List String) :
    ∀ (acc : List String), acc.Nodup → (l.foldl addDistinct acc).Nodup := by
  induction l with
  | nil => intro acc h; simpa
  | cons a l ih =>
      intro acc h
      rw [List.foldl_cons]
      exact ih _ (nodup_addDistinct acc a h)

/-- Folding JS-`Set`-style insertions appends a subsequence of the fold's
input to the accumulator (first-seen order). -/
theorem foldl_addDistinct_decomp (l : List String) :
    ∀ (acc : List String), ∃ t, l.foldl addDistinct acc = acc ++ t ∧ t.Sublist l := by
  induction l with
  | nil => intro acc; exact ⟨[], by simp, List.nil_sublist []⟩
  | cons a l ih =>
      intro acc
      rw [List.foldl_cons]
      by_cases h : a ∈ acc
      · rw [show addDistinct acc a = acc from by unfold addDistinct; rw [if_pos h]]
        obtain ⟨t, ht, hsub⟩ := ih acc
        exact ⟨t, ht, hsub.cons a⟩
      · rw [show addDistinct acc a = acc ++ [a] from by unfold addDistinct; rw [if_neg h]]
        obtain ⟨t, ht, hsub⟩ := ih (acc ++ [a])
        refine ⟨a :: t, ?_, hsub.cons₂ a⟩
        rw [ht, List.append_assoc]
        rfl

/-- The deduplicated list contains exactly the elements of its input. -/
theorem mem_dedupFS (l : List String) (x : String) : x ∈ dedupFS l ↔ x ∈ l := by
  unfold dedupFS
  rw [mem_foldl_addDistinct]
  simp

/-- The deduplicated list has no duplicates. -/
theorem nodup_dedupFS (l : List String) : (dedupFS l).Nodup :=
  nodup_foldl_addDistinct l [] List.nodup_nil

/-- The deduplicated list is a subsequence of its input (first-seen order). -/
theorem dedupFS_sublist (l : List String) : (dedupFS l).Sublist l := by
  obtain ⟨t, ht, hsub⟩ := foldl_addDistinct_decomp l []
  unfold dedupFS
  rw [ht]
  simpa using hsub

/-- When every record carries a non-empty subject name, a collection pass is
the plain fold over the record list's subject names. -/
theorem collectSubjectNames_eq (recs : List FileRec)
    (h : ∀ r ∈ recs, r.subject ≠ "") :
    ∀ acc, collectSubjectNames acc recs
      = (recs.map (fun r => r.subject)).foldl addDistinct acc := by
  induction recs with
  | nil => intro acc; rfl
  | cons r rs ih =>
      intro acc
      have hr : r.subject ≠ "" := h r (List.mem_cons_self _ _)
      unfold collectSubjectNames
      rw [List.foldl_cons, List.map_cons, List.foldl_cons, if_pos hr]
      exact ih (fun x hx => h x (List.mem_cons_of_mem _ hx)) _

/-- When every notes record carries a non-empty unit, the collected units of
a subject are the first-seen deduplication of its notes' units. -/
theorem collectUnits_eq (notes : List FileRec) (subj : String)
    (h : ∀ r ∈ notes, r.unit ≠ "") :
    collectUnits notes subj
      = dedupFS ((notes.filter (fun r => decide (r.subject = subj))).map
          (fun r => r.unit)) := by
  unfold collectUnits dedupFS
  rw [List.filter_congr
        (fun x hx => by simp [h x hx] : ∀ x ∈ notes,
          (decide (x.subject = subj ∧ x.unit ≠ ""))
            = (decide (x.subject = subj)))]
  rw [List.foldl_map]

/-- The names of the reconstructed subjects are the first-seen deduplication
of the subject names occurring across the four record lists, in source
iteration order. -/
theorem reconstructSubjects_names (n p pr a : List FileRec) (mkId : Nat → String)
    (hn : ∀ r ∈ n, r.subject ≠ "") (hp : ∀ r ∈ p, r.subject ≠ "")
    (hpr : ∀ r ∈ pr, r.subject ≠ "") (ha : ∀ r ∈ a, r.subject ≠ "") :
    (reconstructSubjects n p pr a mkId).map (fun sub => sub.name)
      = dedupFS ((n ++ p ++ pr ++ a).map (fun r => r.subject)) := by
  unfold reconstructSubjects
  dsimp only
  rw [List.map_map,
      show ((fun sub : Subject => sub.name) ∘
          fun q : Nat × String => (⟨mkId q.1, q.2, collectUnits n q.2⟩ : Subject))
        = Prod.snd from rfl,
      List.enum_map_snd]
  rw [collectSubjectNames_eq a ha, collectSubjectNames_eq pr hpr,
      collectSubjectNames_eq p hp, collectSubjectNames_eq n hn]
  simp [dedupFS, List.map_append, List.foldl_append]

/-- C7: reconstruction of an empty subject list produces exactly one subject
per distinct subject name occurring across the four record lists (no
duplicates, nothing missed, first-seen order), and each subject's units are
the distinct unit names of its notes records in first-seen order with no
duplicates. -/
theorem reconstructSubjects_spec (n p pr a : List FileRec) (mkId : Nat → String)
    (hn : ∀ r ∈ n, r.subject ≠ "") (hp : ∀ r ∈ p, r.subject ≠ "")
    (hpr : ∀ r ∈ pr, r.subject ≠ "") (ha : ∀ r ∈ a, r.subject ≠ "")
    (hu : ∀ r ∈ n, r.unit ≠ "") :
    ((reconstructSubjects n p pr a mkId).map (fun sub => sub.name)
        = dedupFS ((n ++ p ++ pr ++ a).map (fun r => r.subject)))
    ∧ ((reconstructSubjects n p pr a mkId).map (fun sub => sub.name)).Nodup
    ∧ (∀ x, x ∈ (reconstructSubjects n p pr a mkId).map (fun sub => sub.name) ↔
        x ∈ (n ++ p ++ pr ++ a).map (fun r => r.subject))
    ∧ ((reconstructSubjects n p pr a mkId).map (fun sub => sub.name)).Sublist
        ((n ++ p ++ pr ++ a).map (fun r => r.subject))
    ∧ ∀ sub ∈ reconstructSubjects n p pr a mkId,
        sub.units
            = dedupFS ((n.filter (fun r => decide (r.subject = sub.name))).map
                (fun r => r.unit))
        ∧ sub.units.Nodup
        ∧ (∀ u, u ∈ sub.units ↔
            u ∈ (n.filter (fun r => decide (r.subject = sub.name))).map (fun r => r.unit))
        ∧ sub.units.Sublist
            ((n.filter (fun r => decide (r.subject = sub.name))).map (fun r => r.unit)) := by
  have hnames := reconstructSubjects_names n p pr a mkId hn hp hpr ha
  refine ⟨hnames, ?_, ?_, ?_, ?_⟩
  · rw [hnames]
    exact nodup_dedupFS _
  · intro x
    rw [hnames, mem_dedupFS]
  · rw [hnames]
    exact (dedupFS_sublist _)
  · intro sub hsub
    unfold reconstructSubjects at hsub
    dsimp only at hsub
    obtain ⟨q, hq, rfl⟩ := List.mem_map.mp hsub
    dsimp only
    have hceq := collectUnits_eq n q.2 hu
    refine ⟨hceq, ?_, ?_, ?_⟩
    · rw [hceq]
      exact nodup_dedupFS _
    · intro u
      rw [hceq, mem_dedupFS]
    · rw [hceq]
      exact dedupFS_sublist _

/-- The two notes records of the spec's reconstruction example: subject
`Math` with units `U1` and `U2`. -/
def reconstructWitnessNotes : List FileRec :=
  [⟨"1", "T1", "", "a.pdf", "a.pdf", "1 KB", "d", "Math", "pdf", "U1", "p"⟩,
   ⟨"2", "T2", "", "b.pdf", "b.pdf", "1 KB", "d", "Math", "pdf", "U2", "p"⟩]

/-- Witness for C7 at the spec's concrete example: reconstruction yields
exactly one subject `Math` with units `["U1", "U2"]` in first-seen order. -/
theorem reconstructSubjects_spec_witness :
    ((∀ r ∈ reconstructWitnessNotes, r.subject ≠ "")
      ∧ (∀ r ∈ reconstructWitnessNotes, r.unit ≠ ""))
    ∧ reconstructSubjects reconstructWitnessNotes [] [] [] constId
        = [⟨"id", "Math", ["U1", "U2"]⟩]
    ∧ (((reconstructSubjects reconstructWitnessNotes [] [] [] constId).map
          (fun sub => sub.name)
        = dedupFS (((reconstructWitnessNotes ++ [] ++ [] ++ [] : List FileRec)).map (fun r => r.subject)))
      ∧ ((reconstructSubjects reconstructWitnessNotes [] [] [] constId).map
          (fun sub => sub.name)).Nodup
      ∧ (∀ x, x ∈ (reconstructSubjects reconstructWitnessNotes [] [] [] constId).map
            (fun sub => sub.name) ↔
          x ∈ ((reconstructWitnessNotes ++ [] ++ [] ++ [] : List FileRec)).map (fun r => r.subject))
      ∧ ((reconstructSubjects reconstructWitnessNotes [] [] [] constId).map
          (fun sub => sub.name)).Sublist
          (((reconstructWitnessNotes ++ [] ++ [] ++ [] : List FileRec)).map (fun r => r.subject))
      ∧ ∀ sub ∈ reconstructSubjects reconstructWitnessNotes [] [] [] constId,
          sub.units
              = dedupFS ((reconstructWitnessNotes.filter
                  (fun r => decide (r.subject = sub.name))).map (fun r => r.unit))
          ∧ sub.units.Nodup
          ∧ (∀ u, u ∈ sub.units ↔
              u ∈ (reconstructWitnessNotes.filter
                (fun r => decide (r.subject = sub.name))).map (fun r => r.unit))
          ∧ sub.units.Sublist
              ((reconstructWitnessNotes.filter
                (fun r => decide (r.subject = sub.name))).map (fun r => r.unit))) :=
  ⟨⟨by decide, by decide⟩, by decide,
    reconstructSubjects_spec reconstructWitnessNotes [] [] [] constId
      (by decide) (by decide) (by decide) (by decide) (by decide)⟩
